import Mathlib

/-!
Verification of the TwitterIQ inverted-index core against its specification.

The development shallowly embeds the two postings-list implementations and the
inverted index of the repository:

* `src/postings_lists.py` : class `NumericPostingsList` (gap-compressed growable
  buffer of `np.uint32`, with static `compress`/`decompress`), embedded below as
  the structure `NumericPostingsList` with its operations.
* `src/indexer.py` : class `InvertedIndex` (a `dict` subclass) together with the
  second, file-local `NumericPostingsList` variant it actually instantiates
  (delta-from-first encoding over `np.int32`), embedded in namespace `Indexer`.

Modelling conventions:
* machine integers are modelled as `Int`; the `np.uint32` cast in
  `postings_lists.NumericPostingsList.add` is modelled explicitly by `wrap32`
  (reduction modulo 2 ^ 32).  The `np.int32` values handled by the indexer are
  modelled exactly, which is faithful for corpora of fewer than 2 ^ 31
  documents (the only builds that complete use the default identifiers
  `range(len(database))`).
* the physical numpy buffer of length `capacity` is modelled as the list of its
  written prefix (`postings[:size]`, so `size = postings.length`) plus the
  `capacity` field; `np.empty` garbage beyond the written prefix is never read
  by the `postings_lists.py` variant.  The one place the `indexer.py` variant
  reads an unwritten slot (slot 0 of a freshly created list) is modelled by an
  explicit garbage parameter.
* a Python exception (numpy `IndexError`/`ValueError` on an out-of-bounds store
  or a failed reallocation copy) is modelled as `Option.none`.
-/

/-- `np.uint32` conversion: reduction modulo `2 ^ 32` (the dtype of
`postings_lists.NumericPostingsList`). -/
def wrap32 (x : Int) : Int := x % (2 : Int) ^ 32

/-- Static method `NumericPostingsList.compress` of `src/postings_lists.py`:
yields `a[0]`, then `a[i] - a[i-1]` for each later index `i`. -/
def compress : List Int → List Int
  | [] => []
  | x :: xs => x :: List.zipWith (fun a b => a - b) xs (x :: xs)

/-- Static method `NumericPostingsList.decompress` of `src/postings_lists.py`:
yields `a[0]`, then `a[i] + a[i-1]` for each later index `i`, where `a` is the
*input* array (not the already-produced output: this is not a prefix sum). -/
def decompress : List Int → List Int
  | [] => []
  | x :: xs => x :: List.zipWith (fun a b => a + b) xs (x :: xs)

/-- State of `src/postings_lists.py` class `NumericPostingsList`: the written
prefix of the backing buffer (`postings[:size]`, so `size` is
`postings.length`), the allocated `capacity`, the `highest` marker (`None`
before any successful `add`), and the `expansion_rate` configuration. -/
structure NumericPostingsList where
  postings : List Int
  capacity : Nat
  highest : Option Int
  expansion_rate : ℚ
  deriving DecidableEq, Repr

namespace NumericPostingsList

/-- `self.size`: the number of stored entries. -/
def size (s : NumericPostingsList) : Nat := s.postings.length

/-- `_extend_array`: `capacity = int(capacity * expansion_rate)`, allocate a
fresh buffer of the new capacity and copy the written prefix over.  For a
nonnegative product `capacity * expansion_rate`, Python `int()` truncation is
the floor `(capacity * rate.num).toNat / rate.den`; a negative product models
the exception raised by `np.empty` on a negative length, and a new capacity
smaller than the written prefix models the failing broadcast copy. -/
def extendArray (s : NumericPostingsList) : Option NumericPostingsList :=
  let vnum : Int := (s.capacity : Int) * s.expansion_rate.num
  if vnum < 0 then none
  else
    let newCap : Nat := vnum.toNat / s.expansion_rate.den
    if newCap < s.postings.length then none
    else some { s with capacity := newCap }

/-- `add(posting)`: cast to the unsigned dtype, grow the buffer when full,
skip when equal to `highest`, otherwise store the cast value itself at index
`size` (the source stores the absolute value here, not a gap) and advance
`size`.  `none` models the numpy `IndexError` on a store at `size ≥ capacity`. -/
def add (s : NumericPostingsList) (posting : Int) : Option NumericPostingsList :=
  let p := wrap32 posting
  let step1 : Option NumericPostingsList :=
    if s.postings.length = s.capacity then s.extendArray else some s
  step1.bind (fun s1 =>
    if s1.highest = some p then some s1
    else if s1.postings.length < s1.capacity then
      some { s1 with postings := s1.postings ++ [p], highest := some p }
    else none)

/-- The step of `update(postings)` (repeated `add`), in failure-propagating
form: a raised exception aborts the remaining additions. -/
def addStep (acc : Option NumericPostingsList) (p : Int) : Option NumericPostingsList :=
  acc.bind (fun s => s.add p)

/-- `__init__(postings, capacity, dtype=np.uint32, expansion_rate)`: when the
initial batch exceeds `capacity` the buffer is built directly from
`compress(postings)` (cast elementwise to the dtype) with
`capacity = size = len(postings)` and `highest = postings[-1]`; otherwise an
empty buffer of the requested capacity is filled by repeated `add`. -/
def init (postings : List Int) (capacity : Nat) (expansion_rate : ℚ) :
    Option NumericPostingsList :=
  if postings.length > capacity then
    some { postings := (compress postings).map wrap32,
           capacity := postings.length,
           highest := postings.getLast?,
           expansion_rate := expansion_rate }
  else
    postings.foldl NumericPostingsList.addStep
      (some { postings := [], capacity := capacity, highest := none,
              expansion_rate := expansion_rate })

/-- `finalize()`: `postings = postings[:size]; capacity = size`.  The written
prefix is unchanged; only the allocation shrinks. -/
def finalize (s : NumericPostingsList) : NumericPostingsList :=
  { s with capacity := s.postings.length }

/-- The logical (decompressed) contents, as produced by `__str__`:
`list(decompress(postings[:size]))`. -/
def contents (s : NumericPostingsList) : List Int := decompress s.postings

/-- The states reachable through the public protocol: construction, `add`,
and `finalize`. -/
inductive Reachable : NumericPostingsList → Prop
  | init (ps : List Int) (cap : Nat) (rate : ℚ) (s : NumericPostingsList) :
      NumericPostingsList.init ps cap rate = some s → Reachable s
  | add (s : NumericPostingsList) (p : Int) (s1 : NumericPostingsList) :
      Reachable s → s.add p = some s1 → Reachable s1
  | finalize (s : NumericPostingsList) : Reachable s → Reachable s.finalize

end NumericPostingsList

section PostingsListsLemmas

/-- A successful `add` preserves `size ≤ capacity`. -/
theorem add_size_le_capacity (s s1 : NumericPostingsList) (p : Int)
    (h : s.add p = some s1) (hs : s.size ≤ s.capacity) :
    s1.size ≤ s1.capacity := by
  simp only [NumericPostingsList.add, NumericPostingsList.extendArray] at h
  split at h
  · split at h
    · simp at h
    · split at h
      · simp at h
      · simp only [Option.some_bind] at h
        split at h
        · cases h
          simp only [NumericPostingsList.size] at *
          omega
        · split at h
          · cases h
            simp only [NumericPostingsList.size, List.length_append,
              List.length_singleton] at *
            omega
          · cases h
  · simp only [Option.some_bind] at h
    split at h
    · cases h; exact hs
    · split at h
      · cases h
        simp only [NumericPostingsList.size, List.length_append,
          List.length_singleton] at *
        omega
      · cases h

/-- Folding the `add` step over a batch starting from a failure stays a
failure. -/
theorem foldl_add_none (l : List Int) :
    l.foldl NumericPostingsList.addStep none = none := by
  induction l with
  | nil => rfl
  | cons q rs ih => simpa [NumericPostingsList.addStep] using ih

/-- Folding `add` over a batch preserves `size ≤ capacity`. -/
theorem foldl_add_size_le_capacity (l : List Int) :
    ∀ (s s1 : NumericPostingsList),
      (l.foldl NumericPostingsList.addStep (some s)) = some s1 →
      s.size ≤ s.capacity → s1.size ≤ s1.capacity := by
  induction l with
  | nil => intro s s1 h hs; simp at h; cases h; exact hs
  | cons p rest ih =>
    intro s s1 h hs
    simp only [List.foldl_cons, NumericPostingsList.addStep, Option.some_bind] at h
    cases hadd : s.add p with
    | none =>
      rw [hadd, foldl_add_none] at h
      cases h
    | some t =>
      rw [hadd] at h
      exact ih t s1 h (add_size_le_capacity s t p hadd hs)

/-- Every reachable state satisfies `size ≤ capacity`. -/
theorem reachable_size_le_capacity (s : NumericPostingsList)
    (h : NumericPostingsList.Reachable s) : s.size ≤ s.capacity := by
  induction h with
  | init ps cap rate s0 hinit =>
    unfold NumericPostingsList.init at hinit
    by_cases hbig : ps.length > cap
    · simp only [if_pos hbig, Option.some.injEq] at hinit
      subst hinit
      simp [NumericPostingsList.size, compress]
      cases ps with
      | nil => simp
      | cons x xs => simp [compress, List.length_zipWith]
    · simp only [if_neg hbig] at hinit
      exact foldl_add_size_le_capacity ps _ s0 hinit (by simp [NumericPostingsList.size])
  | add s0 p s1 _ hadd ih => exact add_size_le_capacity s0 s1 p hadd ih
  | finalize s0 _ _ => simp [NumericPostingsList.finalize, NumericPostingsList.size]

end PostingsListsLemmas

/-- C2: the claim says `decompress(compress(s)) == s` for every strictly
ascending integer sequence.  The code computes `a[i] + a[i-1]` over the input
gaps instead of a running prefix sum, so already on the strictly ascending
sequence `[1, 2, 4]` the round trip produces `[1, 2, 3]`, not `[1, 2, 4]`. -/
theorem c2_decompress_compress_roundtrip_fails :
    decompress (compress [1, 2, 4]) = [1, 2, 3] ∧
    decompress (compress [1, 2, 4]) ≠ [1, 2, 4] := by
  exact ⟨by decide, by decide⟩

/-- C3: the claim says the physical buffer always holds the identifiers
gap-encoded (each stored value after the first equal to current minus
previous identifier).  The `add` path of `NumericPostingsList.__init__` in
`src/postings_lists.py` stores the absolute identifier instead: constructing
the list from the ascending batch `[1, 3]` with the default capacity 10
leaves `[1, 3]` in the buffer, while the gap encoding (computed by the
class's own `compress`) is `[1, 2]`; consequently the logical (decompressed)
contents are `[1, 4]`, not the original identifiers `[1, 3]`. -/
theorem c3_add_path_stores_absolute_values :
    NumericPostingsList.init [1, 3] 10 2 =
      some ⟨[1, 3], 10, some 3, 2⟩ ∧
    (compress [1, 3]).map wrap32 = [1, 2] ∧
    NumericPostingsList.contents ⟨[1, 3], 10, some 3, 2⟩ = [1, 4] := by
  exact ⟨by decide, by decide, by decide⟩

/-- C4: the claim says an out-of-ascending-order `add` (add 5 then add 3)
fails with `InvalidAppendOrder`.  `NumericPostingsList.add` in
`src/postings_lists.py` performs no order check at all: starting from an
empty list, adding 5 and then 3 succeeds silently and stores the raw value 3. -/
theorem c4_out_of_order_add_succeeds_silently :
    NumericPostingsList.addStep
        (NumericPostingsList.addStep (NumericPostingsList.init [] 10 2) 5) 3 =
      some ⟨[5, 3], 10, some 3, 2⟩ := by
  decide

/-- C6: at every reachable state of a `postings_lists.py` numeric postings
list, `size ≤ capacity`; immediately after `finalize()` the capacity equals
the size and the logical (decompressed) contents are unchanged. -/
theorem c6_capacity_invariant (s : NumericPostingsList)
    (h : NumericPostingsList.Reachable s) :
    s.size ≤ s.capacity ∧
    s.finalize.capacity = s.finalize.size ∧
    s.finalize.contents = s.contents :=
  ⟨reachable_size_le_capacity s h, rfl, rfl⟩

/-- Witness for C6 at the concrete state built by
`NumericPostingsList([1, 3], capacity=10, expansion_rate=2)`. -/
theorem c6_capacity_invariant_witness :
    (⟨[1, 3], 10, some 3, 2⟩ : NumericPostingsList).size ≤
        (⟨[1, 3], 10, some 3, 2⟩ : NumericPostingsList).capacity ∧
    (⟨[1, 3], 10, some 3, 2⟩ : NumericPostingsList).finalize.capacity =
        (⟨[1, 3], 10, some 3, 2⟩ : NumericPostingsList).finalize.size ∧
    (⟨[1, 3], 10, some 3, 2⟩ : NumericPostingsList).finalize.contents =
        (⟨[1, 3], 10, some 3, 2⟩ : NumericPostingsList).contents :=
  c6_capacity_invariant _
    (NumericPostingsList.Reachable.init [1, 3] 10 2 _ (by decide))

/-- C9: adding a value equal to the most recently added identifier leaves the
stored entries and the `highest` marker unchanged (the duplicate is skipped),
while adding a value different from the most recent one — in particular a
duplicate of an earlier identifier separated by an intervening distinct
value — is appended again: only immediately consecutive repeats collapse.
(The skip happens after the full-buffer reallocation, so only the logical
contents are asserted unchanged here; the capacity side effect is claim C10.) -/
theorem c9_consecutive_duplicates_only :
    (∀ (s : NumericPostingsList) (p : Int),
        s.highest = some (wrap32 p) → s.size ≤ s.capacity →
        1 ≤ s.expansion_rate →
        (s.add p).map (fun t => (t.postings, t.highest)) =
          some (s.postings, s.highest)) ∧
    (∀ (s : NumericPostingsList) (p : Int),
        s.highest ≠ some (wrap32 p) → s.size < s.capacity →
        s.add p = some { s with postings := s.postings ++ [wrap32 p],
                                highest := some (wrap32 p) }) := by
  constructor
  · intro s p hh hle hrate
    have hdpos : 0 < s.expansion_rate.den := s.expansion_rate.den_pos
    have hdn : (s.expansion_rate.den : Int) ≤ s.expansion_rate.num := by
      rw [Rat.le_def] at hrate
      simpa using hrate
    have h1 : (s.capacity : Int) * s.expansion_rate.den ≤
        (s.capacity : Int) * s.expansion_rate.num :=
      mul_le_mul_of_nonneg_left hdn (Int.ofNat_nonneg _)
    have h2 : (0 : Int) ≤ (s.capacity : Int) * s.expansion_rate.num :=
      le_trans (by positivity) h1
    have hv0 : ¬ ((s.capacity : Int) * s.expansion_rate.num < 0) :=
      not_lt.mpr h2
    have hcaple : s.capacity ≤
        ((s.capacity : Int) * s.expansion_rate.num).toNat /
          s.expansion_rate.den := by
      rw [Nat.le_div_iff_mul_le hdpos, Int.le_toNat h2]
      push_cast
      exact h1
    by_cases hfull : s.postings.length = s.capacity
    · have hns : ¬ ((((s.capacity : Int) * s.expansion_rate.num).toNat /
          s.expansion_rate.den) < s.postings.length) := by
        rw [hfull]; omega
      simp only [NumericPostingsList.add, NumericPostingsList.extendArray,
        if_pos hfull, if_neg hv0, if_neg hns, Option.some_bind]
      simp [hh]
    · simp only [NumericPostingsList.add, if_neg hfull, Option.some_bind]
      simp [hh]
  · intro s p hne hlt
    have hlt2 : s.postings.length < s.capacity := hlt
    have hfull : ¬ (s.postings.length = s.capacity) := Nat.ne_of_lt hlt2
    simp only [NumericPostingsList.add, if_neg hfull, Option.some_bind,
      if_neg hne, if_pos hlt2]

/-- Witness for C9: on the list holding `[5]` with `highest = 5`, adding 5
again changes neither the stored entries nor the marker, while adding 7 is
appended. -/
theorem c9_consecutive_duplicates_only_witness :
    ((NumericPostingsList.add ⟨[5], 10, some 5, 2⟩ 5).map
        (fun t => (t.postings, t.highest)) = some ([5], some 5)) ∧
    NumericPostingsList.add ⟨[5], 10, some 5, 2⟩ 7 =
      some ⟨[5, 7], 10, some 7, 2⟩ := by
  constructor
  · exact c9_consecutive_duplicates_only.1 ⟨[5], 10, some 5, 2⟩ 5
      (by decide) (by decide) (by decide)
  · have h := c9_consecutive_duplicates_only.2 ⟨[5], 10, some 5, 2⟩ 7
      (by decide) (by decide)
    rw [h]
    decide

/-- C10 counterexample: with `expansion_rate = 1` (reachable through the
constructor), a full list receiving a consecutive duplicate reallocates to
`int(1 * 1) = 1`: the capacity does not strictly increase. -/
theorem c10_counterexample_rate_one :
    NumericPostingsList.init [5] 1 1 = some ⟨[5], 1, some 5, 1⟩ ∧
    (⟨[5], 1, some 5, 1⟩ : NumericPostingsList).size =
      (⟨[5], 1, some 5, 1⟩ : NumericPostingsList).capacity ∧
    (NumericPostingsList.add ⟨[5], 1, some 5, 1⟩ 5).map
        NumericPostingsList.capacity = some 1 := by
  exact ⟨by decide, by decide, by decide⟩

/-- C10 (amended): for a full numeric postings list with nonzero capacity and
expansion rate at least 2 (the default is 2.0), adding a value equal to the
most recently added identifier still reallocates: the stored entries and
`highest` are unchanged but the capacity becomes
`int(capacity * expansion_rate)`, a strict increase, before the duplicate is
skipped. -/
theorem c10_full_duplicate_still_reallocates (s : NumericPostingsList) (p : Int)
    (hfull : s.size = s.capacity) (hdup : s.highest = some (wrap32 p))
    (hcap : 1 ≤ s.capacity) (hrate : 2 ≤ s.expansion_rate) :
    s.add p = some { s with capacity :=
        ((s.capacity : Int) * s.expansion_rate.num).toNat /
          s.expansion_rate.den } ∧
    s.capacity <
      ((s.capacity : Int) * s.expansion_rate.num).toNat /
        s.expansion_rate.den := by
  have hdpos : 0 < s.expansion_rate.den := s.expansion_rate.den_pos
  have hdn : 2 * (s.expansion_rate.den : Int) ≤ s.expansion_rate.num := by
    rw [Rat.le_def] at hrate
    simpa using hrate
  have h1 : (s.capacity : Int) * (2 * s.expansion_rate.den) ≤
      (s.capacity : Int) * s.expansion_rate.num :=
    mul_le_mul_of_nonneg_left hdn (Int.ofNat_nonneg _)
  have h2 : (0 : Int) ≤ (s.capacity : Int) * s.expansion_rate.num :=
    le_trans (by positivity) h1
  have hv0 : ¬ ((s.capacity : Int) * s.expansion_rate.num < 0) :=
    not_lt.mpr h2
  have hge : 2 * s.capacity ≤
      ((s.capacity : Int) * s.expansion_rate.num).toNat /
        s.expansion_rate.den := by
    rw [Nat.le_div_iff_mul_le hdpos, Int.le_toNat h2]
    push_cast
    nlinarith [h1]
  have hfull2 : s.postings.length = s.capacity := hfull
  have hns : ¬ ((((s.capacity : Int) * s.expansion_rate.num).toNat /
      s.expansion_rate.den) < s.postings.length) := by
    rw [hfull2]; omega
  constructor
  · simp only [NumericPostingsList.add, NumericPostingsList.extendArray,
      if_pos hfull2, if_neg hv0, if_neg hns, Option.some_bind]
    simp [hdup]
  · omega

/-- Witness for C10 at the full list `[5]` with capacity 1 and rate 2:
the duplicate add grows the capacity from 1 to 2 and leaves the entries
alone. -/
theorem c10_full_duplicate_still_reallocates_witness :
    NumericPostingsList.add ⟨[5], 1, some 5, 2⟩ 5 =
      some ⟨[5], 2, some 5, 2⟩ := by
  have h := c10_full_duplicate_still_reallocates ⟨[5], 1, some 5, 2⟩ 5
    (by decide) (by decide) (by decide) (by decide)
  rw [h.1]
  decide

namespace Indexer

/-!
Embedding of `src/indexer.py`.  The `InvertedIndex` dict subclass instantiates
the *file-local* `NumericPostingsList` defined at the bottom of `indexer.py`
(not the one from `postings_lists.py`): every postings list is created by
`__missing__` as `NumericPostingsList([current_doc])` with the default
configuration (`capacity=10`, `dtype=np.int32`, `expansion_rate=2`) and then
mutated only through `add`.

That class stores, at each `add`, the value `posting - self.first` (`first`
is the first identifier the list ever received) and decodes entry `i ≥ 1` as
`stored + first`, entry `0` as `first` itself.  Its `__init__` sets
`size = len(set(postings)) = 1` *before* writing anything into the
`np.empty` buffer, so slot 0 of the buffer is never written and holds
arbitrary garbage; the first `add` compares against that garbage slot.  We
model the list as `first` plus the written prefix `postings[:size]` of the
buffer, whose slot 0 is the explicit garbage value the allocation happened
to contain.  Capacity bookkeeping is omitted from this model: `_extend_array`
copies the written prefix verbatim (into a float64 buffer, exact for int32
magnitudes) and changes no observable value, and all lists examined by the
claims are finalized (`postings = postings[:size]`), so iteration and
decompression see exactly the written prefix.  Arithmetic is exact `Int`,
faithful to `np.int32` for the default identifiers `range(len(database))` of
every completing build (see `checkIds`: supplying explicit identifiers always
raises before indexing).
-/

/-- The file-local `NumericPostingsList` of `src/indexer.py`: `first` and the
written prefix of the buffer (slot 0 of a fresh list is unwritten garbage). -/
structure NumericPostingsList where
  first : Int
  postings : List Int
  deriving DecidableEq, Repr

/-- `add(posting)` of the indexer-local class: set `first` on an empty list,
compute `compressed = posting - first`, skip when the last written slot
already equals `compressed` (the size-0 garbage compare of `postings[-1]`
cannot occur: every list is created with size 1), else append `compressed`. -/
def NumericPostingsList.add (s : NumericPostingsList) (posting : Int) :
    NumericPostingsList :=
  let s0 := if s.postings.length = 0 then { s with first := posting } else s
  let c := posting - s0.first
  if s0.postings.getLast? = some c then s0
  else { s0 with postings := s0.postings ++ [c] }

/-- The state `NumericPostingsList([d])` built by `__missing__`: `__init__`
sets `size = 1` and `first = d` without writing the buffer (slot 0 keeps the
allocation garbage `g`), then `update([d])` runs one `add(d)`. -/
def NumericPostingsList.create (d g : Int) : NumericPostingsList :=
  NumericPostingsList.add { first := d, postings := [g] } d

/-- `decompress` of the indexer-local class over `postings[:size]`: index 0
decodes to `first`, index `i ≥ 1` to `stored + first`. -/
def NumericPostingsList.decompress (s : NumericPostingsList) : List Int :=
  match s.postings with
  | [] => []
  | _ :: rest => s.first :: rest.map (fun c => c + s.first)

/-- `finalize()`: slices the buffer to `postings[:size]`, which is exactly
the written prefix this model stores; the logical state is unchanged. -/
def NumericPostingsList.finalize (s : NumericPostingsList) : NumericPostingsList := s

/-- `InvertedIndex` state: the dict (term to postings list), the private
`__indexing` flag, the private `__current_doc` context, and the oracle giving
the `np.empty` slot-0 garbage observed when the list for a term is created. -/
structure InvertedIndex where
  table : String → Option NumericPostingsList
  indexing : Bool
  curDoc : Int
  garbage : String → Int

/-- One iteration of the token loop of `_index_tokens`: skip excluded tokens;
otherwise set `__current_doc`, look the token up (`__missing__` creates
`NumericPostingsList([current_doc])` while indexing), then `add(doc_id)`. -/
def indexToken (exclude : List String) (docId : Int) (s : InvertedIndex)
    (t : String) : InvertedIndex :=
  if t ∈ exclude then s
  else
    let s1 : InvertedIndex := { s with curDoc := docId }
    match s1.table t with
    | some pl =>
        { s1 with table := fun u => if u = t then some (pl.add docId) else s1.table u }
    | none =>
        { s1 with table := fun u =>
            if u = t then
              some ((NumericPostingsList.create docId (s1.garbage t)).add docId)
            else s1.table u }

/-- `_index_tokens(doc_body, doc_id, exclude)`. -/
def indexTokens (doc : List String) (docId : Int) (exclude : List String)
    (s : InvertedIndex) : InvertedIndex :=
  doc.foldl (indexToken exclude docId) s

/-- One iteration of the document loop of `index`. -/
def indexDoc (exclude : List String) (s : InvertedIndex)
    (pr : List String × Int) : InvertedIndex :=
  indexTokens pr.1 pr.2 exclude s

/-- The default identifiers `range(len(self), len(self) + len(database))` of
a fresh build: `0, 1, ..., n-1`. -/
def defaultIds (n : Nat) : List Int := (List.range n).map Int.ofNat

/-- `index(database)` on a fresh index with default identifiers: raise the
indexing flag, scan the documents in order, finalize every postings list,
drop the flag.  (The `ids is not None` branch goes through `_check_ids`,
which always raises, see `checkIds` below.) -/
def indexRun (database : List (List String)) (exclude : List String)
    (s : InvertedIndex) : InvertedIndex :=
  let s1 : InvertedIndex := { s with indexing := true }
  let s2 := (database.zip (defaultIds database.length)).foldl (indexDoc exclude) s1
  let s3 : InvertedIndex :=
    { s2 with table := fun u => (s2.table u).map NumericPostingsList.finalize }
  { s3 with indexing := false }

/-- `InvertedIndex(database, exclude=exclude)`: construction runs one build
over an empty dict.  `g` is the allocation-garbage oracle. -/
def build (database : List (List String)) (exclude : List String)
    (g : String → Int) : InvertedIndex :=
  indexRun database exclude
    { table := fun _ => none, indexing := false, curDoc := 0, garbage := g }

/-- `self[item]` (dict lookup with `__missing__`): a present key returns its
postings list; a missing key creates-and-inserts `PostingsList([current_doc])`
while `__indexing` is set, and otherwise returns `[]` *without* inserting.
Returns the looked-up list (if any) and the possibly-updated index. -/
def InvertedIndex.getItem (s : InvertedIndex) (t : String) :
    Option NumericPostingsList × InvertedIndex :=
  match s.table t with
  | some pl => (some pl, s)
  | none =>
      if s.indexing then
        let pl := NumericPostingsList.create s.curDoc (s.garbage t)
        (some pl, { s with table := fun u => if u = t then some pl else s.table u })
      else (none, s)

/-- `query(term)` (single-term): the contents of the postings list for the
term — its decompressed identifier sequence — and `[]` for an absent term. -/
def InvertedIndex.query (s : InvertedIndex) (t : String) : List Int :=
  match (s.getItem t).1 with
  | some pl => pl.decompress
  | none => []

/-- `set(obj)` over a query result: Python iterates a finalized
`NumericPostingsList` through `__getitem__`, which yields the *raw stored
slots* `postings[:size]`; `set([])` is empty. -/
def iterSet (pl? : Option NumericPostingsList) : Finset Int :=
  match pl? with
  | some pl => pl.postings.toFinset
  | none => ∅

/-- `query(term1, term2)`: `set(self.query(term1)) & set(self.query(term2))`
(the result list's CPython-internal ordering is abstracted to the set). -/
def InvertedIndex.query2 (s : InvertedIndex) (a b : String) : Finset Int :=
  iterSet (s.getItem a).1 ∩ iterSet (s.getItem b).1

/-- The error raised by `_check_ids`: an `IndexError` for a length mismatch,
an `IndexError` for duplicated identifiers, or the `TypeError` raised by
evaluating `ids & self.collect_ids()` on list operands. -/
inductive CheckError
  | sizeMismatch
  | duplicateIdentifier
  | typeError
  deriving DecidableEq, Repr

/-- `_check_ids(ids, database, ensure_numeric)`: raise on a length mismatch;
raise when `len(ids) != len(set(ids))`; otherwise the second half of that
`or` evaluates `ids & self.collect_ids()`, which applies `&` to a list pair
and raises `TypeError`, so the numeric-coercion loop and the return are never
reached (`ensureNumeric` is accepted for fidelity but cannot matter). -/
def checkIds (ids : List Int) (database : List (List String))
    (_ensureNumeric : Bool) : Except CheckError (List Int) :=
  if ids.length ≠ database.length then .error .sizeMismatch
  else if ids.dedup.length ≠ ids.length then .error .duplicateIdentifier
  else .error .typeError

end Indexer

/-- C5: the claim says the validator fails with `SizeMismatch` exactly on a
length mismatch, with `DuplicateIdentifier` exactly on a repeated identifier,
with `NonNumericIdentifier` exactly on a lossy numeric coercion, and
otherwise succeeds with the coerced identifiers.  In the code, any
duplicate-free identifier list of the right length instead reaches
`ids & self.collect_ids()`, which raises `TypeError` on list operands: the
success path (and the numeric-coercion check) is unreachable. -/
theorem c5_check_ids_never_succeeds (ids : List Int)
    (database : List (List String)) (e : Bool)
    (hlen : ids.length = database.length) (hnodup : ids.Nodup) :
    Indexer.checkIds ids database e = Except.error Indexer.CheckError.typeError := by
  unfold Indexer.checkIds
  rw [if_neg (by omega), if_neg (by rw [hnodup.dedup]; omega)]

/-- Witness for C5: the perfectly valid identifiers `[0, 1]` for a two-document
collection are rejected with the `TypeError`, where the claim promises
success. -/
theorem c5_check_ids_never_succeeds_witness :
    Indexer.checkIds [0, 1] [["a"], ["b"]] true =
      Except.error Indexer.CheckError.typeError :=
  c5_check_ids_never_succeeds [0, 1] [["a"], ["b"]] true (by decide) (by decide)

/-- C7: on a frozen index (`__indexing` unset, as after a completed build),
querying a term that is not present returns the empty result and leaves the
index mapping untouched: `__missing__` does not insert outside the build. -/
theorem c7_frozen_query_does_not_mutate (s : Indexer.InvertedIndex) (t : String)
    (hfrozen : s.indexing = false) (hmissing : s.table t = none) :
    s.query t = [] ∧ (s.getItem t).2 = s := by
  unfold Indexer.InvertedIndex.query Indexer.InvertedIndex.getItem
  rw [hmissing, hfrozen]
  simp

/-- Witness for C7 on the index built from the single document `["a"]`:
querying the unseen term `"b"` yields `[]` and the state is unchanged. -/
theorem c7_frozen_query_does_not_mutate_witness :
    (Indexer.build [["a"]] [] (fun _ => 0)).query "b" = [] ∧
    ((Indexer.build [["a"]] [] (fun _ => 0)).getItem "b").2 =
      Indexer.build [["a"]] [] (fun _ => 0) :=
  c7_frozen_query_does_not_mutate _ "b" rfl rfl

/-- C8: the two-term query is commutative: for every index state and every
pair of terms, `query(a, b)` and `query(b, a)` are the same set, each being
the intersection of the two single-term result sets. -/
theorem c8_two_term_query_commutes (s : Indexer.InvertedIndex) (a b : String) :
    s.query2 a b = s.query2 b a :=
  Finset.inter_comm _ _

namespace Indexer

@[simp] theorem decompress_mk_nil (f : Int) :
    NumericPostingsList.decompress ⟨f, []⟩ = [] := rfl

@[simp] theorem decompress_mk_cons (f x : Int) (rest : List Int) :
    NumericPostingsList.decompress ⟨f, x :: rest⟩ =
      f :: rest.map (fun c => c + f) := rfl

/-- `add` on a nonempty list (every list the index handles is nonempty):
skip when the last written slot equals the new delta, else append it. -/
theorem add_mk_cons (f x p : Int) (rest : List Int) :
    NumericPostingsList.add ⟨f, x :: rest⟩ p =
      if (x :: rest).getLast? = some (p - f) then ⟨f, x :: rest⟩
      else ⟨f, x :: rest ++ [p - f]⟩ := by
  simp [NumericPostingsList.add]

/-- Invariant of every postings list held by the index: some already-present
logical identifier decodes from the last written slot. -/
def GoodList (pl : NumericPostingsList) : Prop :=
  ∃ a, a ∈ pl.decompress ∧ pl.postings.getLast? = some (a - pl.first)

/-- `add` never removes identifiers from the logical contents. -/
theorem mem_decompress_add {pl : NumericPostingsList} {d : Int}
    (hd : d ∈ pl.decompress) (p : Int) : d ∈ (pl.add p).decompress := by
  obtain ⟨f, post⟩ := pl
  cases post with
  | nil => simp at hd
  | cons x rest =>
    rw [add_mk_cons]
    split
    · exact hd
    · simp only [List.cons_append, decompress_mk_cons, List.map_append,
        List.mem_cons, List.mem_append, List.map_cons, List.map_nil,
        List.mem_singleton] at hd ⊢
      tauto

/-- On a list satisfying the invariant, `add p` makes `p` a member of the
logical contents and preserves the invariant (for the skip branch the last
slot pins the previous identifier to `p` itself). -/
theorem add_self_mem {pl : NumericPostingsList} (hg : GoodList pl) (p : Int) :
    p ∈ (pl.add p).decompress ∧ GoodList (pl.add p) := by
  obtain ⟨a, ham, hlast⟩ := hg
  obtain ⟨f, post⟩ := pl
  cases post with
  | nil => simp at ham
  | cons x rest =>
    rw [add_mk_cons]
    split
    · rename_i hcond
      rw [hlast] at hcond
      have hap : a = p := by
        have h := Option.some.inj hcond
        dsimp only at h
        omega
      subst hap
      exact ⟨ham, a, ham, hlast⟩
    · constructor
      · simp
      · refine ⟨p, by simp, ?_⟩
        show ((x :: rest) ++ [p - f]).getLast? = some (p - f)
        exact List.getLast?_concat _

/-- The list `__missing__` creates for the current document `d`, with
allocation garbage `g` in its unwritten slot 0, satisfies the invariant and
logically contains `d` for every `g`. -/
theorem create_good (d g : Int) :
    GoodList (NumericPostingsList.create d g) ∧
      d ∈ (NumericPostingsList.create d g).decompress := by
  unfold NumericPostingsList.create
  rw [add_mk_cons]
  split
  · rename_i hcond
    exact ⟨⟨d, by simp, hcond⟩, by simp⟩
  · exact ⟨⟨d, by simp, by simp⟩, by simp⟩

/-- All lists reachable in the table satisfy `GoodList`. -/
def TableInv (s : InvertedIndex) : Prop :=
  ∀ t pl, s.table t = some pl → GoodList pl

/-- Document `d` is logically present in the postings list for term `t`. -/
def HasDoc (s : InvertedIndex) (t : String) (d : Int) : Prop :=
  ∃ pl, s.table t = some pl ∧ d ∈ pl.decompress

theorem indexToken_tableInv {s : InvertedIndex} (hs : TableInv s)
    (ex : List String) (i : Int) (u : String) :
    TableInv (indexToken ex i s u) := by
  simp only [indexToken]
  split
  · exact hs
  · split
    · rename_i pl heq
      intro t1 pl1 h
      dsimp only at h
      by_cases ht : t1 = u
      · rw [if_pos ht] at h
        cases h
        exact (add_self_mem (hs u pl heq) i).2
      · rw [if_neg ht] at h
        exact hs t1 pl1 h
    · rename_i heq
      intro t1 pl1 h
      dsimp only at h
      by_cases ht : t1 = u
      · rw [if_pos ht] at h
        cases h
        exact (add_self_mem (create_good i (s.garbage u)).1 i).2
      · rw [if_neg ht] at h
        exact hs t1 pl1 h

theorem indexToken_hasDoc {s : InvertedIndex} {t : String} {d : Int}
    (hp : HasDoc s t d) (ex : List String) (i : Int) (u : String) :
    HasDoc (indexToken ex i s u) t d := by
  obtain ⟨pl, hlook, hmem⟩ := hp
  simp only [indexToken]
  split
  · exact ⟨pl, hlook, hmem⟩
  · split
    · rename_i pl0 heq
      by_cases ht : t = u
      · subst ht
        have he : pl0 = pl := by
          have h2 : some pl0 = some pl := by rw [← heq, ← hlook]
          exact Option.some.inj h2
        subst he
        refine ⟨pl0.add i, ?_, mem_decompress_add hmem i⟩
        dsimp only
        rw [if_pos rfl]
      · refine ⟨pl, ?_, hmem⟩
        dsimp only
        rw [if_neg ht]
        exact hlook
    · rename_i heq
      by_cases ht : t = u
      · subst ht
        rw [heq] at hlook
        cases hlook
      · refine ⟨pl, ?_, hmem⟩
        dsimp only
        rw [if_neg ht]
        exact hlook

theorem indexToken_establish {s : InvertedIndex} (hs : TableInv s)
    {u : String} {ex : List String} (hu : u ∉ ex) (i : Int) :
    HasDoc (indexToken ex i s u) u i := by
  simp only [indexToken]
  rw [if_neg hu]
  split
  · rename_i pl heq
    refine ⟨pl.add i, ?_, (add_self_mem (hs u pl heq) i).1⟩
    dsimp only
    rw [if_pos rfl]
  · rename_i heq
    refine ⟨(NumericPostingsList.create i (s.garbage u)).add i, ?_,
      (add_self_mem (create_good i (s.garbage u)).1 i).1⟩
    dsimp only
    rw [if_pos rfl]

theorem indexTokens_tableInv {doc : List String} :
    ∀ {s : InvertedIndex}, TableInv s → ∀ (i : Int) (ex : List String),
      TableInv (indexTokens doc i ex s) := by
  induction doc with
  | nil => intro s hs i ex; exact hs
  | cons u rest ih =>
    intro s hs i ex
    simp only [indexTokens, List.foldl_cons]
    exact ih (indexToken_tableInv hs ex i u) i ex

theorem indexTokens_hasDoc {doc : List String} :
    ∀ {s : InvertedIndex} {t : String} {d : Int}, HasDoc s t d →
      ∀ (i : Int) (ex : List String), HasDoc (indexTokens doc i ex s) t d := by
  induction doc with
  | nil => intro s t d hp i ex; exact hp
  | cons u rest ih =>
    intro s t d hp i ex
    simp only [indexTokens, List.foldl_cons]
    exact ih (indexToken_hasDoc hp ex i u) i ex

theorem indexTokens_establish {doc : List String} :
    ∀ {s : InvertedIndex} {t : String} {ex : List String}, TableInv s →
      t ∈ doc → t ∉ ex → ∀ (i : Int), HasDoc (indexTokens doc i ex s) t i := by
  induction doc with
  | nil => intro s t ex _ ht _ _; simp at ht
  | cons u rest ih =>
    intro s t ex hs ht hex i
    simp only [indexTokens, List.foldl_cons]
    rcases List.mem_cons.mp ht with h | h
    · subst h
      exact indexTokens_hasDoc (indexToken_establish hs hex i) i ex
    · exact ih (indexToken_tableInv hs ex i u) h hex i

theorem indexDocs_tableInv {L : List (List String × Int)} :
    ∀ {s : InvertedIndex}, TableInv s → ∀ (ex : List String),
      TableInv (L.foldl (indexDoc ex) s) := by
  induction L with
  | nil => intro s hs ex; exact hs
  | cons pr rest ih =>
    intro s hs ex
    simp only [List.foldl_cons]
    exact ih (indexTokens_tableInv hs pr.2 ex) ex

theorem indexDocs_hasDoc {L : List (List String × Int)} :
    ∀ {s : InvertedIndex} {t : String} {d : Int}, HasDoc s t d →
      ∀ (ex : List String), HasDoc (L.foldl (indexDoc ex) s) t d := by
  induction L with
  | nil => intro s t d hp ex; exact hp
  | cons pr rest ih =>
    intro s t d hp ex
    simp only [List.foldl_cons]
    exact ih (indexTokens_hasDoc hp pr.2 ex) ex

/-- After the document scan, the term of every processed (document, id) pair
holds that document identifier in its postings list, for every non-excluded
token of the document. -/
theorem indexDocs_establish {L : List (List String × Int)} :
    ∀ {s : InvertedIndex} {t : String} {ex : List String} {doc : List String}
      {i : Int}, TableInv s → (doc, i) ∈ L → t ∈ doc → t ∉ ex →
      HasDoc (L.foldl (indexDoc ex) s) t i := by
  induction L with
  | nil => intro s t ex doc i _ hmem _ _; simp at hmem
  | cons pr rest ih =>
    intro s t ex doc i hs hmem ht hex
    simp only [List.foldl_cons]
    rcases List.mem_cons.mp hmem with h | h
    · subst h
      exact indexDocs_hasDoc (indexTokens_establish hs ht hex i) ex
    · exact ih (indexTokens_tableInv hs pr.2 ex) h ht hex

/-- A single-term query on a present term returns the decompressed contents
of its postings list. -/
theorem query_of_table_some {s : InvertedIndex} {t : String}
    {pl : NumericPostingsList} (h : s.table t = some pl) :
    s.query t = pl.decompress := by
  simp [InvertedIndex.query, InvertedIndex.getItem, h]

/-- The table of a completed build is the scanned table with every list
finalized. -/
theorem build_table (db : List (List String)) (ex : List String)
    (g : String → Int) (t : String) :
    (build db ex g).table t =
      (((db.zip (defaultIds db.length)).foldl (indexDoc ex)
          { table := fun _ => none, indexing := true, curDoc := 0,
            garbage := g }).table t).map NumericPostingsList.finalize := rfl

end Indexer

/-- C1: for every document collection built with the default identifiers
(the only builds that complete, see C5), every position `i`, and every token
`t` of document `i` that is not excluded, the identifier `i` is a member of
the (decompressed) contents answered by `query(t)` — for every possible
allocation garbage.  The bound on the collection size keeps exact integer
arithmetic faithful to the `np.int32` identifiers. -/
theorem c1_built_index_answers_membership
    (db : List (List String)) (exclude : List String) (g : String → Int)
    (i : Nat) (hi : i < db.length) (t : String) (ht : t ∈ db[i])
    (hex : t ∉ exclude) (hsize : db.length < 2 ^ 31) :
    (i : Int) ∈ (Indexer.build db exclude g).query t := by
  have hlen : (Indexer.defaultIds db.length).length = db.length := by
    unfold Indexer.defaultIds
    rw [List.length_map, List.length_range]
  have hizip : i < (db.zip (Indexer.defaultIds db.length)).length := by
    rw [List.length_zip, hlen, Nat.min_self]
    exact hi
  have hid : i < (Indexer.defaultIds db.length).length := by
    rw [hlen]; exact hi
  have hget : (db.zip (Indexer.defaultIds db.length))[i] =
      (db[i], (Indexer.defaultIds db.length)[i]) := List.getElem_zip ..
  have hid2 : (Indexer.defaultIds db.length)[i] = (i : Int) := by
    unfold Indexer.defaultIds
    rw [List.getElem_map, List.getElem_range]
    rfl
  have hmem : (db[i], (i : Int)) ∈ db.zip (Indexer.defaultIds db.length) := by
    rw [← hid2, ← hget]
    exact List.getElem_mem hizip
  have hstart : Indexer.TableInv
      { table := fun _ => none, indexing := true, curDoc := 0,
        garbage := g } := by
    intro u pl h
    simp at h
  obtain ⟨pl, hlook, hmemd⟩ := Indexer.indexDocs_establish hstart hmem ht hex
  have htab : (Indexer.build db exclude g).table t = some pl := by
    rw [Indexer.build_table, hlook]
    rfl
  rw [Indexer.query_of_table_some htab]
  exact hmemd

/-- Witness for C1: building `[["cat","dog"],["dog"]]` (no exclusions,
allocation garbage 1 everywhere), document 1 is in the answer to
`query("dog")`. -/
theorem c1_built_index_answers_membership_witness :
    ((1 : Nat) : Int) ∈
      (Indexer.build [["cat", "dog"], ["dog"]] [] (fun _ => 1)).query "dog" :=
  c1_built_index_answers_membership [["cat", "dog"], ["dog"]] [] (fun _ => 1)
    1 (by decide) "dog" (by decide) (by decide) (by decide)
